import Mathlib

/-!
Verification development for the `libaec` acoustic echo cancellation (AEC)
engine of this repository.  The repository ships only the C boundary header
`libaec-win-x86-64/libaec.h` (generated with cbindgen), which declares the
three operations

  Aec *AecNew(uintptr_t frame_size, int32_t filter_length,
              uint32_t sample_rate, bool enable_preprocess);
  void AecCancelEcho(Aec *aec_ptr, const int16_t *rec_buffer,
                     const int16_t *echo_buffer, int16_t *out_buffer,
                     uintptr_t buffer_length);
  void AecDestroy(Aec *aec_ptr);

The engine behind these declarations is not part of the sources, so the
per-frame algorithm (adaptive NLMS filter, double-talk step-size controller,
optional preprocessor) is modelled here from the design document, §3–§4.
The boundary signature — the order and const-ness of the buffers, the
numeric parameter types — comes from the header itself, which is the code
authority for everything it covers.  Samples are signed 16-bit integers,
modelled as `ℤ` with saturation at the output boundary; the internal
floating-point domain is modelled exactly as `ℚ`.
-/

set_option autoImplicit false

namespace Libaec

/-- Modelled from the spec (§4.2): the small epsilon that floors the power
term in the normalized step size, so the division is never by a value below
epsilon.  The Rust implementation behind `libaec.h` is missing; the constant
is a representative fixed positive rational. -/
def epsilon : ℚ := 1 / 1000

/-- Modelled from the spec (§4.2 numeric semantics): the fixed decay constant
of the exponential smoothing used by all energy estimates. -/
def alpha : ℚ := 1 / 10

/-- Modelled from the spec (§4.2/§4.3): the base adaptation rate that the
double-talk controller scales by its multiplier in `[0, 1]`. -/
def baseRate : ℚ := 1 / 4

/-- Dot product of two coefficient lists (taps against the reference-history
window); missing entries count as zero, per the cold-start policy of §4.2. -/
def dot : List ℚ → List ℚ → ℚ
  | [], _ => 0
  | _, [] => 0
  | a :: as, b :: bs => a * b + dot as bs

/-- Slide the reference history window: prepend the newest sample and keep
the most recent `L` samples (newest first), per §3 Reference History. -/
def pushSample (L : ℕ) (x : ℚ) (hist : List ℚ) : List ℚ :=
  (x :: hist).take L

/-- Energy of a frame: sum of squared samples, the quantity all smoothed
energy estimates of §4.3 track. -/
def energy (xs : List ℚ) : ℚ :=
  (xs.map fun x => x * x).sum

/-- Modelled from the spec (§4.3): the double-talk controller derives from
the smoothed far-end energy and near-end residual energy a scalar adaptation
multiplier in `[0, 1]`, large when the far end dominates and small under
double talk; a continuous control law with no discrete states. -/
def adaptationMultiplier (eFar eNear : ℚ) : ℚ :=
  eFar / (eFar + eNear + epsilon)

/-- The adaptive-filter state threaded through one frame: the taps and the
reference history window. -/
structure FiltState where
  taps : List ℚ
  hist : List ℚ
deriving Repr, DecidableEq

/-- Modelled from the spec (§4.2): one sample of the NLMS loop.  With the
window `w` obtained by sliding the newest reference sample `x` into the
history: `echo_estimate = dot taps w`, `error = m - echo_estimate` (the
provisional output), and `taps += stepSize * error * w`. -/
def sampleStep (L : ℕ) (stepSize : ℚ) (x m : ℚ) (fs : FiltState) :
    ℚ × FiltState :=
  let w := pushSample L x fs.hist
  let est := dot fs.taps w
  let err := m - est
  let taps := List.zipWith (fun t wi => t + stepSize * (err * wi)) fs.taps w
  (err, ⟨taps, w⟩)

/-- Modelled from the spec (§4.2): run the per-sample loop over the paired
(reference, microphone) samples of one frame, collecting the error samples
as the provisional output frame. -/
def processSamples (L : ℕ) (stepSize : ℚ) :
    List (ℚ × ℚ) → FiltState → List ℚ × FiltState
  | [], fs => ([], fs)
  | (x, m) :: rest, fs =>
    let r := sampleStep L stepSize x m fs
    let rs := processSamples L stepSize rest r.2
    (r.1 :: rs.1, rs.2)

/-- The engine instance of §3: configuration, Filter State (taps plus global
power estimate), Reference History, and Energy/Control State. -/
structure Aec where
  frame_size : ℕ
  filter_length : ℕ
  sample_rate : ℕ
  preprocess_enabled : Bool
  taps : List ℚ
  refHistory : List ℚ
  powerEstimate : ℚ
  eFar : ℚ
  eNear : ℚ
deriving Repr, DecidableEq

/-- Modelled from the spec (§4.4): the preprocessor, when enabled, attenuates
the filter output by a residual-suppression gain derived from the smoothed
energies; when disabled the stage is a no-op pass-through (handled by the
caller `cancelEchoCore`). -/
def preprocessFrame (eFar eNear : ℚ) (out : List ℚ) : List ℚ :=
  out.map fun x => ((eNear + epsilon) / (eFar + eNear + epsilon)) * x

/-- Modelled from the spec (§4.2 equation 3): the per-frame step size is the
controller-scaled adaptation rate divided by the epsilon-floored power
estimate. -/
def stepSizeOf (st : Aec) : ℚ :=
  baseRate * adaptationMultiplier st.eFar st.eNear /
    (st.powerEstimate + epsilon)

/-- Modelled from the spec (§4.1–§4.4, §4.5 CancelEcho): process one frame.
The frame runs through the per-sample NLMS loop; the smoothed energies and
the power estimate are updated for the next frame; the preprocessor runs
only when enabled.  Arguments are in the spec's §4.5 role order: reference
(far-end) frame first, microphone frame second. -/
def cancelEchoCore (st : Aec) (referenceFrame micFrame : List ℚ) :
    List ℚ × Aec :=
  let r := processSamples st.filter_length (stepSizeOf st)
    (referenceFrame.zip micFrame) ⟨st.taps, st.refHistory⟩
  let eFar2 := (1 - alpha) * st.eFar + alpha * energy referenceFrame
  let eNear2 := (1 - alpha) * st.eNear + alpha * energy r.1
  let power2 := (1 - alpha) * st.powerEstimate + alpha * energy referenceFrame
  let out := if st.preprocess_enabled then
      preprocessFrame st.eFar st.eNear r.1
    else r.1
  (out,
    { st with
      taps := r.2.taps
      refHistory := r.2.hist
      powerEstimate := power2
      eFar := eFar2
      eNear := eNear2 })

/-- Saturate and round an internal sample back to the signed 16-bit output
domain of the boundary (§6: samples are signed 16-bit integers). -/
def toSample (x : ℚ) : ℤ :=
  max (-32768) (min 32767 (round x))

/-- Lift a boundary int16 sample into the internal arithmetic domain. -/
def ofSample (i : ℤ) : ℚ := (i : ℚ)

/-- The supported sample-rate range of §3 (8 kHz – 48 kHz). -/
def supportedRate (r : ℕ) : Prop := 8000 ≤ r ∧ r ≤ 48000

instance (r : ℕ) : Decidable (supportedRate r) := by
  unfold supportedRate; infer_instance

/-- Modelled from the spec (§4.5 Create, §7(a)): `AecNew` from the header.
`frame_size` is a `uintptr_t` (ℕ), `filter_length` an `int32_t` (ℤ, so
negative values are representable), `sample_rate` a `uint32_t`.  Returns
`none` (the null handle) when a numeric parameter is out of the supported
range; otherwise a fully constructed instance with zero-initialized Filter
State and Control State.  Allocation failure is the one failure source this
pure model cannot exhibit. -/
def AecNew (frame_size : ℕ) (filter_length : ℤ) (sample_rate : ℕ)
    (enable_preprocess : Bool) : Option Aec :=
  if frame_size = 0 ∨ filter_length ≤ 0 ∨ ¬supportedRate sample_rate then
    none
  else
    some
      { frame_size := frame_size
        filter_length := filter_length.toNat
        sample_rate := sample_rate
        preprocess_enabled := enable_preprocess
        taps := List.replicate filter_length.toNat 0
        refHistory := List.replicate filter_length.toNat 0
        powerEstimate := 0
        eFar := 0
        eNear := 0 }

/-- The boundary call from the header:
`AecCancelEcho(aec_ptr, rec_buffer, echo_buffer, out_buffer, buffer_length)`.
Per the header's own names, the FIRST buffer is `rec_buffer`, the recorded
(near-end, microphone) signal, and the SECOND is `echo_buffer`, the far-end
signal that produces the echo — the signal the spec calls "the reference
(echo/far-end)".  The frame computation itself is modelled from the spec
(`cancelEchoCore`); this wrapper converts int16 samples to the internal
domain and saturates the result back, returning the written output frame
and the mutated instance in place of the C in-out pointers. -/
def AecCancelEcho (st : Aec) (rec_buffer echo_buffer : List ℤ) :
    List ℤ × Aec :=
  let r := cancelEchoCore st (echo_buffer.map ofSample) (rec_buffer.map ofSample)
  (r.1.map toSample, r.2)

/-- The same boundary computation with the buffer roles the spec's §4.5
sentence states for CancelEcho: reference frame as the first buffer and
microphone frame as the second.  Written to be compared with
`AecCancelEcho`, whose roles follow the header's parameter names. -/
def AecCancelEchoSpecOrder (st : Aec) (reference_frame microphone_frame : List ℤ) :
    List ℤ × Aec :=
  let r := cancelEchoCore st (reference_frame.map ofSample)
    (microphone_frame.map ofSample)
  (r.1.map toSample, r.2)

/-- `AecDestroy` from the header: releases the instance and returns nothing.
In the pure model dropping the state is the release. -/
def AecDestroy (_st : Aec) : Unit := ()

/-- Drive a sequence of frame-processing calls in stream order (§5): each
element pairs a `rec_buffer` with an `echo_buffer`, exactly as they are
passed to `AecCancelEcho`; returns the output frames and the final state. -/
def processN : Aec → List (List ℤ × List ℤ) → List (List ℤ) × Aec
  | st, [] => ([], st)
  | st, (rec, echo) :: rest =>
    let r := AecCancelEcho st rec echo
    let rs := processN r.2 rest
    (r.1 :: rs.1, rs.2)

/-- The three caller-owned sample buffers of one `AecCancelEcho` call, as a
little memory model: the two const input buffers and the output buffer. -/
structure CallBuffers where
  rec_buffer : List ℤ
  echo_buffer : List ℤ
  out_buffer : List ℤ
deriving Repr, DecidableEq

/-- The boundary call acting on the caller's buffer memory: the engine reads
`rec_buffer` and `echo_buffer` (const pointers in the header) and writes only
`out_buffer`. -/
def AecCancelEchoMem (st : Aec) (b : CallBuffers) : CallBuffers × Aec :=
  let r := AecCancelEcho st b.rec_buffer b.echo_buffer
  (⟨b.rec_buffer, b.echo_buffer, r.1⟩, r.2)

/-! ### Cost-instrumented mirror of the per-frame path

Each definition below recomputes exactly what its uninstrumented
counterpart computes, additionally counting one unit per primitive
per-sample operation (one per tap touched in the dot product and in the tap
update, one per sample of overhead, one per boundary conversion or energy
accumulation).  This makes the §5 operation bound a theorem about the
per-frame path rather than an assertion. -/

def dotC : List ℚ → List ℚ → ℚ × ℕ
  | a :: as, b :: bs =>
    let r := dotC as bs
    (a * b + r.1, r.2 + 1)
  | _, _ => (0, 0)

def updC (stepSize err : ℚ) : List ℚ → List ℚ → List ℚ × ℕ
  | a :: as, b :: bs =>
    let r := updC stepSize err as bs
    ((a + stepSize * (err * b)) :: r.1, r.2 + 1)
  | _, _ => ([], 0)

def energyC : List ℚ → ℚ × ℕ
  | [] => (0, 0)
  | x :: xs =>
    let r := energyC xs
    (x * x + r.1, r.2 + 1)

def sampleStepC (L : ℕ) (stepSize x m : ℚ) (fs : FiltState) :
    (ℚ × FiltState) × ℕ :=
  let w := pushSample L x fs.hist
  let d := dotC fs.taps w
  let err := m - d.1
  let u := updC stepSize err fs.taps w
  ((err, ⟨u.1, w⟩), d.2 + u.2 + 1)

def processSamplesC (L : ℕ) (stepSize : ℚ) :
    List (ℚ × ℚ) → FiltState → (List ℚ × FiltState) × ℕ
  | [], fs => (([], fs), 0)
  | (x, m) :: rest, fs =>
    let r := sampleStepC L stepSize x m fs
    let rs := processSamplesC L stepSize rest r.1.2
    ((r.1.1 :: rs.1.1, rs.1.2), r.2 + rs.2)

def AecCancelEchoC (st : Aec) (rec echo : List ℤ) : (List ℤ × Aec) × ℕ :=
  let refQ := echo.map ofSample
  let micQ := rec.map ofSample
  let r := processSamplesC st.filter_length (stepSizeOf st) (refQ.zip micQ)
    ⟨st.taps, st.refHistory⟩
  let eRef := energyC refQ
  let eOut := energyC r.1.1
  let out := if st.preprocess_enabled then
      preprocessFrame st.eFar st.eNear r.1.1
    else r.1.1
  ((out.map toSample,
    { st with
      taps := r.1.2.taps
      refHistory := r.1.2.hist
      powerEstimate := (1 - alpha) * st.powerEstimate + alpha * eRef.1
      eFar := (1 - alpha) * st.eFar + alpha * eRef.1
      eNear := (1 - alpha) * st.eNear + alpha * eOut.1 }),
   r.2 + 2 * eRef.2 + eOut.2 + rec.length + echo.length + out.length +
     (if st.preprocess_enabled then out.length else 0))

/-! ### Basic lemmas about the frame computation -/

lemma dot_replicate_zero_right (as : List ℚ) : ∀ n, dot as (List.replicate n 0) = 0 := by
  induction as with
  | nil => intro n; cases n <;> simp [dot]
  | cons a as ih =>
    intro n
    cases n with
    | zero => simp [dot]
    | succ n => simpa [dot, List.replicate_succ] using ih n

lemma pushSample_zero (L : ℕ) :
    pushSample L 0 (List.replicate L 0) = List.replicate L 0 := by
  have h : (0 : ℚ) :: List.replicate L 0 = List.replicate (L + 1) 0 := by
    simp [List.replicate_succ]
  simp [pushSample, h, List.take_replicate]

lemma sampleStep_zero (L : ℕ) (s : ℚ) :
    sampleStep L s 0 0 ⟨List.replicate L 0, List.replicate L 0⟩ =
      (0, ⟨List.replicate L 0, List.replicate L 0⟩) := by
  simp [sampleStep, pushSample_zero, dot_replicate_zero_right,
    List.zipWith_replicate]

lemma processSamples_zero (L : ℕ) (s : ℚ) (n : ℕ) :
    processSamples L s (List.replicate n (0, 0))
        ⟨List.replicate L 0, List.replicate L 0⟩ =
      (List.replicate n 0, ⟨List.replicate L 0, List.replicate L 0⟩) := by
  induction n with
  | zero => simp [processSamples]
  | succ n ih =>
    simp only [List.replicate_succ, processSamples, sampleStep_zero, ih]

lemma energy_replicate_zero (n : ℕ) : energy (List.replicate n 0) = 0 := by
  simp [energy]

lemma energy_nonneg (xs : List ℚ) : 0 ≤ energy xs := by
  refine List.sum_nonneg ?_
  intro x hx
  obtain ⟨y, _, rfl⟩ := List.mem_map.mp hx
  exact mul_self_nonneg y

lemma processSamples_length (L : ℕ) (s : ℚ) (ps : List (ℚ × ℚ))
    (fs : FiltState) : (processSamples L s ps fs).1.length = ps.length := by
  induction ps generalizing fs with
  | nil => simp [processSamples]
  | cons p rest ih => cases p; simp [processSamples, ih]

lemma map_ofSample_zero (f : ℕ) :
    (List.replicate f (0 : ℤ)).map ofSample = List.replicate f (0 : ℚ) := by
  simp [ofSample]

lemma toSample_zero : toSample 0 = 0 := by
  simp [toSample]

lemma epsilon_pos : 0 < epsilon := by norm_num [epsilon]

/-- Silence is a fixed point: on an instance whose Filter State, Reference
History and Energy/Control State are all zero, an all-zero frame pair
produces an all-zero output frame and leaves the instance unchanged. -/
lemma AecCancelEcho_zero (a : Aec)
    (hT : a.taps = List.replicate a.filter_length 0)
    (hH : a.refHistory = List.replicate a.filter_length 0)
    (hP : a.powerEstimate = 0) (hF : a.eFar = 0) (hN : a.eNear = 0) (f : ℕ) :
    AecCancelEcho a (List.replicate f 0) (List.replicate f 0) =
      (List.replicate f 0, a) := by
  obtain ⟨fs, L, sr, pp, tp, rh, pw, ef, en⟩ := a
  simp only at hT hH hP hF hN
  subst hT hH hP hF hN
  unfold AecCancelEcho cancelEchoCore
  simp only [map_ofSample_zero, List.zip_replicate, Nat.min_self,
    processSamples_zero, energy_replicate_zero]
  cases pp <;>
    simp [preprocessFrame, toSample_zero, alpha]

/-- The Energy/Control State quantities are nonnegative. -/
def NonnegState (a : Aec) : Prop :=
  0 ≤ a.powerEstimate ∧ 0 ≤ a.eFar ∧ 0 ≤ a.eNear

lemma nonnegState_step (a : Aec) (rec echo : List ℤ)
    (h : NonnegState a) : NonnegState (AecCancelEcho a rec echo).2 := by
  obtain ⟨h1, h2, h3⟩ := h
  unfold AecCancelEcho cancelEchoCore
  refine ⟨?_, ?_, ?_⟩ <;>
  · apply add_nonneg
    · apply mul_nonneg
      · norm_num [alpha]
      · first | exact h1 | exact h2 | exact h3
    · exact mul_nonneg (by norm_num [alpha]) (energy_nonneg _)

lemma nonnegState_processN (a : Aec) (inputs : List (List ℤ × List ℤ))
    (h : NonnegState a) : NonnegState (processN a inputs).2 := by
  induction inputs generalizing a with
  | nil => exact h
  | cons p rest ih =>
    cases p
    exact ih _ (nonnegState_step _ _ _ h)

/-- `AecNew` either rejects the configuration or returns the fully
zero-initialized record. -/
lemma AecNew_eq_some {f : ℕ} {l : ℤ} {s : ℕ} {p : Bool} {a : Aec}
    (h : AecNew f l s p = some a) :
    a = { frame_size := f
          filter_length := l.toNat
          sample_rate := s
          preprocess_enabled := p
          taps := List.replicate l.toNat 0
          refHistory := List.replicate l.toNat 0
          powerEstimate := 0
          eFar := 0
          eNear := 0 } := by
  unfold AecNew at h
  split at h
  · cases h
  · exact (Option.some.inj h).symm

/-! ### The cost-instrumented mirror computes the same values, at linear cost -/

lemma dotC_fst (as : List ℚ) : ∀ bs, (dotC as bs).1 = dot as bs := by
  induction as with
  | nil => intro bs; cases bs <;> simp [dotC, dot]
  | cons a as ih => intro bs; cases bs <;> simp [dotC, dot, ih]

lemma dotC_snd (as : List ℚ) : ∀ bs, (dotC as bs).2 ≤ as.length := by
  induction as with
  | nil => intro bs; cases bs <;> simp [dotC]
  | cons a as ih =>
    intro bs
    cases bs with
    | nil => simp [dotC]
    | cons b bs => simpa [dotC] using ih bs

lemma updC_fst (s e : ℚ) (as : List ℚ) :
    ∀ bs, (updC s e as bs).1 =
      List.zipWith (fun t wi => t + s * (e * wi)) as bs := by
  induction as with
  | nil => intro bs; cases bs <;> simp [updC]
  | cons a as ih => intro bs; cases bs <;> simp [updC, ih]

lemma updC_snd (s e : ℚ) (as : List ℚ) :
    ∀ bs, (updC s e as bs).2 ≤ as.length := by
  induction as with
  | nil => intro bs; cases bs <;> simp [updC]
  | cons a as ih =>
    intro bs
    cases bs with
    | nil => simp [updC]
    | cons b bs => simpa [updC] using ih bs

lemma energyC_fst (xs : List ℚ) : (energyC xs).1 = energy xs := by
  induction xs with
  | nil => simp [energyC, energy]
  | cons x xs ih => simp [energyC, energy, ih]

lemma energyC_snd (xs : List ℚ) : (energyC xs).2 = xs.length := by
  induction xs with
  | nil => simp [energyC]
  | cons x xs ih => simp [energyC, ih]

lemma sampleStepC_fst (L : ℕ) (s x m : ℚ) (fs : FiltState) :
    (sampleStepC L s x m fs).1 = sampleStep L s x m fs := by
  simp [sampleStepC, sampleStep, dotC_fst, updC_fst]

lemma sampleStepC_snd (L : ℕ) (s x m : ℚ) (fs : FiltState) :
    (sampleStepC L s x m fs).2 ≤ 2 * fs.taps.length + 1 := by
  have h1 := dotC_snd fs.taps (pushSample L x fs.hist)
  have h2 := updC_snd s (m - (dotC fs.taps (pushSample L x fs.hist)).1)
    fs.taps (pushSample L x fs.hist)
  simp only [sampleStepC]
  omega

/-- Well-formedness of the threaded filter state: the taps and the history
window both have the configured filter length. -/
def WfFilt (L : ℕ) (fs : FiltState) : Prop :=
  fs.taps.length = L ∧ fs.hist.length = L

lemma pushSample_length (L : ℕ) (x : ℚ) (hist : List ℚ)
    (h : hist.length = L) : (pushSample L x hist).length = L := by
  simp [pushSample, h]

lemma sampleStep_wf (L : ℕ) (s x m : ℚ) (fs : FiltState)
    (h : WfFilt L fs) : WfFilt L (sampleStep L s x m fs).2 := by
  obtain ⟨h1, h2⟩ := h
  constructor
  · simp [sampleStep, pushSample, h1, h2]
  · simp [sampleStep, pushSample, h2]

lemma processSamplesC_fst (L : ℕ) (s : ℚ) (ps : List (ℚ × ℚ)) (fs : FiltState) :
    (processSamplesC L s ps fs).1 = processSamples L s ps fs := by
  induction ps generalizing fs with
  | nil => simp [processSamplesC, processSamples]
  | cons p rest ih =>
    cases p
    simp [processSamplesC, processSamples, sampleStepC_fst, ih]

lemma processSamplesC_snd (L : ℕ) (s : ℚ) (ps : List (ℚ × ℚ)) (fs : FiltState)
    (h : WfFilt L fs) :
    (processSamplesC L s ps fs).2 ≤ ps.length * (2 * L + 1) := by
  induction ps generalizing fs with
  | nil => simp [processSamplesC]
  | cons p rest ih =>
    obtain ⟨x, m⟩ := p
    have hstep : (sampleStepC L s x m fs).2 ≤ 2 * L + 1 := by
      have := sampleStepC_snd L s x m fs
      rw [h.1] at this
      exact this
    have hwf : WfFilt L (sampleStepC L s x m fs).1.2 := by
      rw [sampleStepC_fst]
      exact sampleStep_wf L s x m fs h
    have hrest := ih _ hwf
    simp only [processSamplesC, List.length_cons]
    calc (sampleStepC L s x m fs).2 +
        (processSamplesC L s rest (sampleStepC L s x m fs).1.2).2
      ≤ (2 * L + 1) + rest.length * (2 * L + 1) := by omega
    _ = (rest.length + 1) * (2 * L + 1) := by ring

lemma AecCancelEchoC_fst (st : Aec) (rec echo : List ℤ) :
    (AecCancelEchoC st rec echo).1 = AecCancelEcho st rec echo := by
  simp [AecCancelEchoC, AecCancelEcho, cancelEchoCore, processSamplesC_fst,
    energyC_fst]

lemma adaptationMultiplier_mem_Icc (eF eN : ℚ) (h1 : 0 ≤ eF) (h2 : 0 ≤ eN) :
    0 ≤ adaptationMultiplier eF eN ∧ adaptationMultiplier eF eN ≤ 1 := by
  have hd : 0 < eF + eN + epsilon :=
    add_pos_of_nonneg_of_pos (add_nonneg h1 h2) epsilon_pos
  unfold adaptationMultiplier
  refine ⟨div_nonneg h1 hd.le, ?_⟩
  rw [div_le_one hd]
  have he : 0 < epsilon := epsilon_pos
  linarith

/-! ### Test fixture: a small valid instance -/

/-- The instance `AecNew 2 1 8000 false` returns: frame size 2, one filter
tap, zero-initialized state. -/
def aSmall : Aec :=
  { frame_size := 2
    filter_length := 1
    sample_rate := 8000
    preprocess_enabled := false
    taps := [0]
    refHistory := [0]
    powerEstimate := 0
    eFar := 0
    eNear := 0 }

/-! ### The claims -/

/-- C1: on any instance returned by `AecNew`, feeding all-zero reference and
microphone frames for any number `N` of consecutive calls yields all-zero
output frames for every one of the `N` calls, leaves the instance exactly at
its zero-initialized creation state, and in particular the filter taps stay
exactly zero after every call. -/
theorem silence_keeps_output_and_taps_zero
    (f : ℕ) (l : ℤ) (s : ℕ) (p : Bool) (a : Aec)
    (h : AecNew f l s p = some a) (N : ℕ) :
    processN a (List.replicate N (List.replicate f 0, List.replicate f 0)) =
      (List.replicate N (List.replicate f (0 : ℤ)), a) ∧
    a.taps = List.replicate a.filter_length 0 := by
  have ha := AecNew_eq_some h
  subst ha
  refine ⟨?_, rfl⟩
  induction N with
  | zero => simp [processN]
  | succ N ih =>
    have hz := AecCancelEcho_zero
      { frame_size := f
        filter_length := l.toNat
        sample_rate := s
        preprocess_enabled := p
        taps := List.replicate l.toNat 0
        refHistory := List.replicate l.toNat 0
        powerEstimate := 0
        eFar := 0
        eNear := 0 } rfl rfl rfl rfl rfl f
    simp only [List.replicate_succ, processN, hz, ih]

/-- Witness for C1 at the concrete instance `AecNew 2 1 8000 false` and
three zero frames. -/
theorem silence_keeps_output_and_taps_zero_witness :
    processN aSmall
        (List.replicate 3 (List.replicate 2 (0 : ℤ), List.replicate 2 (0 : ℤ))) =
      (List.replicate 3 (List.replicate 2 (0 : ℤ)), aSmall) ∧
    aSmall.taps = List.replicate aSmall.filter_length 0 :=
  silence_keeps_output_and_taps_zero 2 1 8000 false aSmall (by decide) 3

/-- C2: once the length preconditions hold, `AecCancelEcho` is a total
function with no fallible step: it returns exactly one output frame of the
configured frame size (its only result besides the state it threads), and
`AecDestroy` returns nothing. -/
theorem cancelEcho_total_and_sized
    (a : Aec) (rec echo : List ℤ)
    (h1 : rec.length = a.frame_size) (h2 : echo.length = a.frame_size) :
    (AecCancelEcho a rec echo).1.length = a.frame_size ∧
    AecDestroy a = () := by
  refine ⟨?_, rfl⟩
  unfold AecCancelEcho cancelEchoCore
  cases hp : a.preprocess_enabled <;>
    simp [hp, preprocessFrame, processSamples_length, h1, h2]

/-- Witness for C2 at the concrete instance `aSmall`. -/
theorem cancelEcho_total_and_sized_witness :
    (AecCancelEcho aSmall [1, 2] [3, 4]).1.length = aSmall.frame_size ∧
    AecDestroy aSmall = () :=
  cancelEcho_total_and_sized aSmall [1, 2] [3, 4] (by decide) (by decide)

/-- C3: `AecNew` returns the null handle exactly when a numeric parameter is
out of range (`frame_size = 0` — non-positive for the unsigned boundary
type —, `filter_length ≤ 0` over the signed `int32_t`, or a sample rate
outside the supported 8 kHz – 48 kHz range); otherwise it returns a fully
constructed instance whose Filter State and Control State are all zero.
Allocation failure, the remaining failure source of the claim, cannot occur
in this pure model. -/
theorem aecNew_null_iff_bad_params (f : ℕ) (l : ℤ) (s : ℕ) (p : Bool) :
    (AecNew f l s p = none ↔ f = 0 ∨ l ≤ 0 ∨ ¬supportedRate s) ∧
    ∀ a, AecNew f l s p = some a →
      a.frame_size = f ∧ a.filter_length = l.toNat ∧ a.sample_rate = s ∧
      a.preprocess_enabled = p ∧
      a.taps = List.replicate a.filter_length 0 ∧
      a.refHistory = List.replicate a.filter_length 0 ∧
      a.powerEstimate = 0 ∧ a.eFar = 0 ∧ a.eNear = 0 := by
  constructor
  · unfold AecNew
    split <;> simp_all
  · intro a h
    have := AecNew_eq_some h
    subst this
    simp

/-- Witness for C3: the success half applied to the concrete creation
`AecNew 2 1 8000 false`. -/
theorem aecNew_null_iff_bad_params_witness :
    aSmall.frame_size = 2 ∧ aSmall.filter_length = (1 : ℤ).toNat ∧
    aSmall.sample_rate = 8000 ∧ aSmall.preprocess_enabled = false ∧
    aSmall.taps = List.replicate aSmall.filter_length 0 ∧
    aSmall.refHistory = List.replicate aSmall.filter_length 0 ∧
    aSmall.powerEstimate = 0 ∧ aSmall.eFar = 0 ∧ aSmall.eNear = 0 :=
  (aecNew_null_iff_bad_params 2 1 8000 false).2 aSmall (by decide)

/-- C4: in the buffer memory model of one call, `AecCancelEcho` leaves the
contents of the caller-owned `rec_buffer` and `echo_buffer` untouched and
writes only the output buffer and the instance state. -/
theorem cancelEcho_inputs_read_only (a : Aec) (b : CallBuffers) :
    (AecCancelEchoMem a b).1.rec_buffer = b.rec_buffer ∧
    (AecCancelEchoMem a b).1.echo_buffer = b.echo_buffer ∧
    (AecCancelEchoMem a b).1.out_buffer =
      (AecCancelEcho a b.rec_buffer b.echo_buffer).1 ∧
    (AecCancelEchoMem a b).2 = (AecCancelEcho a b.rec_buffer b.echo_buffer).2 :=
  ⟨rfl, rfl, rfl, rfl⟩

/-- C5 counterexample: the first buffer of `AecCancelEcho` is NOT the
reference frame.  On the fresh instance `aSmall`, with first buffer
`[1, 1]` and second buffer `[0, 0]`, the call returns `[1, 1]` — the zero
echo estimate is subtracted from the FIRST buffer, so the first buffer is
the microphone — whereas with the spec's claimed role order (reference
first) the same buffers would produce `[0, 0]`. -/
theorem cancelEcho_buffer_order_counterexample :
    (AecCancelEcho aSmall [1, 1] [0, 0]).1 = [1, 1] ∧
    (AecCancelEchoSpecOrder aSmall [1, 1] [0, 0]).1 = [0, 0] ∧
    (AecCancelEcho aSmall [1, 1] [0, 0]).1 ≠
      (AecCancelEchoSpecOrder aSmall [1, 1] [0, 0]).1 := by
  have h1 : (AecCancelEcho aSmall [1, 1] [0, 0]).1 = [1, 1] := by
    norm_num [AecCancelEcho, cancelEchoCore, aSmall, processSamples,
      sampleStep, pushSample, dot, ofSample, toSample]
  have h2 : (AecCancelEchoSpecOrder aSmall [1, 1] [0, 0]).1 = [0, 0] := by
    norm_num [AecCancelEchoSpecOrder, cancelEchoCore, aSmall, processSamples,
      sampleStep, pushSample, dot, ofSample, toSample]
  refine ⟨h1, h2, ?_⟩
  rw [h1, h2]
  decide

/-- C5 amended: `AecCancelEcho` takes the recorded microphone (near-end)
frame as its FIRST buffer (`rec_buffer`) and the far-end reference frame as
its SECOND buffer (`echo_buffer`): the call coincides with the spec-role
pipeline applied with reference := second buffer and microphone := first
buffer. -/
theorem cancelEcho_mic_first_reference_second (a : Aec) (rec echo : List ℤ) :
    AecCancelEcho a rec echo = AecCancelEchoSpecOrder a echo rec := rfl

/-- C6: two instances created with identical parameters and fed
byte-identical input sequences in the same order produce byte-identical
output sequences and final states. -/
theorem identical_instances_identical_outputs
    (f : ℕ) (l : ℤ) (s : ℕ) (p : Bool) (a b : Aec)
    (ha : AecNew f l s p = some a) (hb : AecNew f l s p = some b)
    (inputs : List (List ℤ × List ℤ)) :
    processN a inputs = processN b inputs := by
  rw [ha] at hb
  cases Option.some.inj hb
  rfl

/-- Witness for C6 at two copies of the concrete creation
`AecNew 2 1 8000 false`. -/
theorem identical_instances_identical_outputs_witness :
    processN aSmall [([1, 2], [3, 4])] = processN aSmall [([1, 2], [3, 4])] :=
  identical_instances_identical_outputs 2 1 8000 false aSmall aSmall
    (by decide) (by decide) [([1, 2], [3, 4])]

/-- C7: the per-sample adaptive-filter step computes exactly the four §4.2
equations — echo estimate as the dot product of the taps with the window
ending at the sample, error = mic − estimate as the provisional output, tap
update by stepSize · error · window — the per-frame step size divides the
controller rate by `powerEstimate + epsilon`, and on every state reachable
from creation that divisor is floored at epsilon (the power estimate never
drives it below epsilon). -/
theorem nlms_equations_and_epsilon_floor
    (f : ℕ) (l : ℤ) (s : ℕ) (p : Bool) (a : Aec)
    (h : AecNew f l s p = some a) (inputs : List (List ℤ × List ℤ)) :
    (∀ (L : ℕ) (stepSize x m : ℚ) (fs : FiltState),
        sampleStep L stepSize x m fs =
          (m - dot fs.taps (pushSample L x fs.hist),
           ⟨List.zipWith
              (fun t wi =>
                t + stepSize * ((m - dot fs.taps (pushSample L x fs.hist)) * wi))
              fs.taps (pushSample L x fs.hist),
            pushSample L x fs.hist⟩)) ∧
    stepSizeOf (processN a inputs).2 =
      baseRate *
          adaptationMultiplier (processN a inputs).2.eFar
            (processN a inputs).2.eNear /
        ((processN a inputs).2.powerEstimate + epsilon) ∧
    epsilon ≤ (processN a inputs).2.powerEstimate + epsilon := by
  refine ⟨fun L stepSize x m fs => rfl, rfl, ?_⟩
  have hn : NonnegState (processN a inputs).2 := by
    refine nonnegState_processN a inputs ?_
    have := AecNew_eq_some h
    subst this
    exact ⟨le_refl 0, le_refl 0, le_refl 0⟩
  linarith [hn.1]

/-- Witness for C7: the epsilon floor at the concrete creation
`AecNew 2 1 8000 false` after an empty input history. -/
theorem nlms_equations_and_epsilon_floor_witness :
    epsilon ≤ (processN aSmall []).2.powerEstimate + epsilon :=
  (nlms_equations_and_epsilon_floor 2 1 8000 false aSmall (by decide) []).2.2

/-- C8: on every state reachable from creation — after every `AecCancelEcho`
call, and at creation itself — the double-talk controller's derived
adaptation multiplier lies in the closed interval `[0, 1]`. -/
theorem controller_multiplier_in_unit_interval
    (f : ℕ) (l : ℤ) (s : ℕ) (p : Bool) (a : Aec)
    (h : AecNew f l s p = some a) (inputs : List (List ℤ × List ℤ)) :
    0 ≤ adaptationMultiplier (processN a inputs).2.eFar
        (processN a inputs).2.eNear ∧
    adaptationMultiplier (processN a inputs).2.eFar
        (processN a inputs).2.eNear ≤ 1 := by
  have hn : NonnegState (processN a inputs).2 := by
    refine nonnegState_processN a inputs ?_
    have := AecNew_eq_some h
    subst this
    exact ⟨le_refl 0, le_refl 0, le_refl 0⟩
  exact adaptationMultiplier_mem_Icc _ _ hn.2.1 hn.2.2

/-- Witness for C8 at the concrete creation `AecNew 2 1 8000 false` after
one frame of input. -/
theorem controller_multiplier_in_unit_interval_witness :
    0 ≤ adaptationMultiplier (processN aSmall [([1, 2], [3, 4])]).2.eFar
        (processN aSmall [([1, 2], [3, 4])]).2.eNear ∧
    adaptationMultiplier (processN aSmall [([1, 2], [3, 4])]).2.eFar
        (processN aSmall [([1, 2], [3, 4])]).2.eNear ≤ 1 :=
  controller_multiplier_in_unit_interval 2 1 8000 false aSmall (by decide)
    [([1, 2], [3, 4])]

/-- C9: the per-frame path terminates within an operation count linear in
`filter_length`: for a well-formed instance and frames of the configured
size, the cost-instrumented mirror computes exactly the `AecCancelEcho`
result while its operation count is at most
`frame_size * (2 * filter_length + 8)`. -/
theorem cancelEcho_linear_operation_bound
    (a : Aec) (rec echo : List ℤ)
    (ht : a.taps.length = a.filter_length)
    (hh : a.refHistory.length = a.filter_length)
    (h1 : rec.length = a.frame_size) (h2 : echo.length = a.frame_size) :
    (AecCancelEchoC a rec echo).1 = AecCancelEcho a rec echo ∧
    (AecCancelEchoC a rec echo).2 ≤
      a.frame_size * (2 * a.filter_length + 8) := by
  refine ⟨AecCancelEchoC_fst a rec echo, ?_⟩
  have hzip : ((echo.map ofSample).zip (rec.map ofSample)).length =
      a.frame_size := by
    simp [h1, h2]
  have hr := processSamplesC_snd a.filter_length (stepSizeOf a)
    ((echo.map ofSample).zip (rec.map ofSample)) ⟨a.taps, a.refHistory⟩
    ⟨ht, hh⟩
  rw [hzip] at hr
  have hout : (processSamplesC a.filter_length (stepSizeOf a)
      ((echo.map ofSample).zip (rec.map ofSample))
      ⟨a.taps, a.refHistory⟩).1.1.length = a.frame_size := by
    rw [processSamplesC_fst, processSamples_length, hzip]
  simp only [AecCancelEchoC, energyC_snd, List.length_map, h1, h2]
  cases hp : a.preprocess_enabled <;>
    simp only [hp, if_true, if_false, Bool.false_eq_true, ite_false,
      ite_true, preprocessFrame, List.length_map, hout]
  · have key : a.frame_size * (2 * a.filter_length + 8) =
        a.frame_size * (2 * a.filter_length + 1) + 7 * a.frame_size := by
      ring
    rw [key]
    set A := a.frame_size * (2 * a.filter_length + 1) with hA
    omega
  · have key : a.frame_size * (2 * a.filter_length + 8) =
        a.frame_size * (2 * a.filter_length + 1) + 7 * a.frame_size := by
      ring
    rw [key]
    set A := a.frame_size * (2 * a.filter_length + 1) with hA
    omega

/-- Witness for C9 at the concrete instance `aSmall`. -/
theorem cancelEcho_linear_operation_bound_witness :
    (AecCancelEchoC aSmall [1, 2] [3, 4]).1 = AecCancelEcho aSmall [1, 2] [3, 4] ∧
    (AecCancelEchoC aSmall [1, 2] [3, 4]).2 ≤
      aSmall.frame_size * (2 * aSmall.filter_length + 8) :=
  cancelEcho_linear_operation_bound aSmall [1, 2] [3, 4]
    (by decide) (by decide) (by decide) (by decide)

end Libaec
